import Mathlib

/-!
Verification of the unlang interpreter model of
`src/include/interpreter.h` (FreeRADIUS server).

The header defines the data model: node types (`unlang_type_t`), the
base node (`unlang_t`) with its per-result-code action table, the
specialisations (`unlang_group_t`, `unlang_module_call_t`,
`unlang_module_resumption_t`, `unlang_xlat_inline_t`), the bounded
interpreter stack (`unlang_stack_t`, `UNLANG_STACK_MAX`) and the
inline conversion functions between the generic node and its
specialisations.  The interpreter loop itself (group sequencing,
priority folding, redundant sections, push/pop, yield/resume) is
declared here but implemented elsewhere; those operations are
modelled from the specification and marked as such.
-/

/-- Maximum interpreter stack depth, `#define UNLANG_STACK_MAX (64)`. -/
def UNLANG_STACK_MAX : Nat := 64

/-- Action table marker for the keyword "return", `#define MOD_ACTION_RETURN (-1)`. -/
def MOD_ACTION_RETURN : Int := -1

/-- Action table marker for the keyword "reject", `#define MOD_ACTION_REJECT (-2)`. -/
def MOD_ACTION_REJECT : Int := -2

/-- Maximum priority, `#define MOD_PRIORITY_MAX (64)`. -/
def MOD_PRIORITY_MAX : Int := 64

/-- Result codes returned by modules and sections.  The header pulls these
from `modpriv.h` (`RLM_MODULE_NUMCODES` entries); the spec's glossary lists
the ten codes: reject, fail, ok, handled, invalid, user-lock, not-found,
no-op, updated, disallow. -/
inductive rlm_rcode_t where
  | RLM_MODULE_REJECT
  | RLM_MODULE_FAIL
  | RLM_MODULE_OK
  | RLM_MODULE_HANDLED
  | RLM_MODULE_INVALID
  | RLM_MODULE_USERLOCK
  | RLM_MODULE_NOTFOUND
  | RLM_MODULE_NOOP
  | RLM_MODULE_UPDATED
  | RLM_MODULE_DISALLOW
  deriving DecidableEq, Repr

open rlm_rcode_t

/-- Number of result codes, `RLM_MODULE_NUMCODES`. -/
def RLM_MODULE_NUMCODES : Nat := 10

/-- Types of `unlang_t` nodes (enum `unlang_type_t`), in declaration order
with `WITH_UNLANG` defined, so that the C enum values are exactly the
positions in this declaration (NULL = 0, MODULE_CALL = 1, ...). -/
inductive unlang_type_t where
  | UNLANG_TYPE_NULL
  | UNLANG_TYPE_MODULE_CALL
  | UNLANG_TYPE_GROUP
  | UNLANG_TYPE_LOAD_BALANCE
  | UNLANG_TYPE_REDUNDANT_LOAD_BALANCE
  | UNLANG_TYPE_PARALLEL
  | UNLANG_TYPE_IF
  | UNLANG_TYPE_ELSE
  | UNLANG_TYPE_ELSIF
  | UNLANG_TYPE_UPDATE
  | UNLANG_TYPE_SWITCH
  | UNLANG_TYPE_CASE
  | UNLANG_TYPE_FOREACH
  | UNLANG_TYPE_BREAK
  | UNLANG_TYPE_RETURN
  | UNLANG_TYPE_MAP
  | UNLANG_TYPE_POLICY
  | UNLANG_TYPE_XLAT_INLINE
  | UNLANG_TYPE_MODULE_RESUME
  deriving DecidableEq, Repr

open unlang_type_t

/-- C enum value of an `unlang_type_t` (declaration position). -/
def unlang_type_t.val : unlang_type_t → Nat
  | UNLANG_TYPE_NULL => 0
  | UNLANG_TYPE_MODULE_CALL => 1
  | UNLANG_TYPE_GROUP => 2
  | UNLANG_TYPE_LOAD_BALANCE => 3
  | UNLANG_TYPE_REDUNDANT_LOAD_BALANCE => 4
  | UNLANG_TYPE_PARALLEL => 5
  | UNLANG_TYPE_IF => 6
  | UNLANG_TYPE_ELSE => 7
  | UNLANG_TYPE_ELSIF => 8
  | UNLANG_TYPE_UPDATE => 9
  | UNLANG_TYPE_SWITCH => 10
  | UNLANG_TYPE_CASE => 11
  | UNLANG_TYPE_FOREACH => 12
  | UNLANG_TYPE_BREAK => 13
  | UNLANG_TYPE_RETURN => 14
  | UNLANG_TYPE_MAP => 15
  | UNLANG_TYPE_POLICY => 16
  | UNLANG_TYPE_XLAT_INLINE => 17
  | UNLANG_TYPE_MODULE_RESUME => 18

/-- `UNLANG_TYPE_MAX`, the sentinel closing the enum. -/
def UNLANG_TYPE_MAX : Nat := 19

/-- Group types (enum `unlang_group_type_t`). -/
inductive unlang_group_type_t where
  | UNLANG_GROUP_TYPE_SIMPLE
  | UNLANG_GROUP_TYPE_REDUNDANT
  deriving DecidableEq, Repr

/-- Base node (`struct unlang_t`).  Pointers (`parent`, `next`) are modelled
as optional indices into a node arena; `actions` is the per-result-code
action table (`int actions[RLM_MODULE_NUMCODES]`), whose entries are
positive priorities or the markers `MOD_ACTION_RETURN` / `MOD_ACTION_REJECT`. -/
structure unlang_t where
  parent : Option Nat
  next : Option Nat
  name : String
  debug_name : String
  type : unlang_type_t
  actions : rlm_rcode_t → Int

/-- Grouping node (`unlang_group_t`).  Opaque external pointers
(`cs`, `map`, `vpt`, `cond`, `proc_inst`) are modelled as numeric handles. -/
structure unlang_group_t where
  self : unlang_t
  group_type : unlang_group_type_t
  children : Option Nat
  tail : Option Nat
  cs : Nat
  num_children : Int
  map : Nat
  vpt : Nat
  cond : Nat
  proc_inst : Nat

/-- Module call node (`unlang_module_call_t`).  The module instance and the
method entry point are external immutable references, modelled as handles. -/
structure unlang_module_call_t where
  self : unlang_t
  module_instance : Nat
  method : Nat

/-- Resumption point (`unlang_module_resumption_t`): the module call that
yielded, the thread-local handle, the continuation and signal callbacks and
the opaque context, all modelled as handles. -/
structure unlang_module_resumption_t where
  module : unlang_module_call_t
  thread : Nat
  callback : Nat
  signal_callback : Nat
  ctx : Nat

/-- Naked xlat node (`unlang_xlat_inline_t`). -/
structure unlang_xlat_inline_t where
  self : unlang_t
  exec : Int
  xlat_name : String

/-- A node in the control-flow graph, as one of the specialisations of
`unlang_t`.  In C every specialisation starts with an `unlang_t` so a
generic pointer is a view of the full specialised struct; here the generic
view is the sum of the specialisations. -/
inductive unlang_node where
  | base (p : unlang_t)
  | group (p : unlang_group_t)
  | module_call (p : unlang_module_call_t)
  | module_resumption (p : unlang_module_resumption_t)
  | xlat_inline (p : unlang_xlat_inline_t)

/-- Leading `unlang_t` header of a node: what a generic `unlang_t *`
dereferences to. -/
def unlang_node.self : unlang_node → unlang_t
  | .base p => p
  | .group p => p.self
  | .module_call p => p.self
  | .module_resumption p => p.module.self
  | .xlat_inline p => p.self

/-- Upcast `unlang_module_call_to_generic`: `(unlang_t *)p`. -/
def unlang_module_call_to_generic (p : unlang_module_call_t) : unlang_node :=
  .module_call p

/-- Upcast `unlang_group_to_generic`: `(unlang_t *)p`. -/
def unlang_group_to_generic (p : unlang_group_t) : unlang_node :=
  .group p

/-- Upcast `unlang_module_resumption_to_generic`: `(unlang_t *)p`. -/
def unlang_module_resumption_to_generic (p : unlang_module_resumption_t) : unlang_node :=
  .module_resumption p

/-- Upcast `unlang_xlat_inline_to_generic`: `(unlang_t *)p`. -/
def unlang_xlat_inline_to_generic (p : unlang_xlat_inline_t) : unlang_node :=
  .xlat_inline p

/-- Downcast `unlang_generic_to_module_call`: asserts
`p->type == UNLANG_TYPE_MODULE_CALL` and checks the allocation really is an
`unlang_module_call_t` (`talloc_get_type_abort`); a failed assertion aborts,
modelled as `none`. -/
def unlang_generic_to_module_call (g : unlang_node) : Option unlang_module_call_t :=
  match g with
  | .module_call p =>
      if p.self.type = UNLANG_TYPE_MODULE_CALL then some p else none
  | _ => none

/-- Downcast `unlang_generic_to_module_resumption`: asserts
`p->type == UNLANG_TYPE_MODULE_RESUME` and checks the allocation
(`talloc_get_type_abort`). -/
def unlang_generic_to_module_resumption (g : unlang_node) : Option unlang_module_resumption_t :=
  match g with
  | .module_resumption p =>
      if p.module.self.type = UNLANG_TYPE_MODULE_RESUME then some p else none
  | _ => none

/-- Assertion guarding `unlang_generic_to_group`:
`rad_assert((p->type > UNLANG_TYPE_MODULE_CALL) && (p->type <= UNLANG_TYPE_POLICY))`.
The comparison is on C enum values. -/
def unlang_generic_to_group_check (t : unlang_type_t) : Bool :=
  (t.val > UNLANG_TYPE_MODULE_CALL.val) && (t.val ≤ UNLANG_TYPE_POLICY.val)

/-- Downcast `unlang_generic_to_group`: the assertion above, then a plain
cast `(unlang_group_t *)p` (no talloc type check). -/
def unlang_generic_to_group (g : unlang_node) : Option unlang_group_t :=
  match g with
  | .group p =>
      if unlang_generic_to_group_check p.self.type then some p else none
  | _ => none

/-- C9: the specialisation conversions round-trip as identities under their
type-tag preconditions: converting an `unlang_module_call_t` whose tag is
`UNLANG_TYPE_MODULE_CALL` to generic and back yields the same node, and
likewise for an `unlang_module_resumption_t` tagged
`UNLANG_TYPE_MODULE_RESUME`; neither direction modifies the node. -/
theorem unlang_specialisation_roundtrip
    (p : unlang_module_call_t) (q : unlang_module_resumption_t)
    (hp : p.self.type = UNLANG_TYPE_MODULE_CALL)
    (hq : q.module.self.type = UNLANG_TYPE_MODULE_RESUME) :
    unlang_generic_to_module_call (unlang_module_call_to_generic p) = some p ∧
    unlang_generic_to_module_resumption (unlang_module_resumption_to_generic q) = some q := by
  constructor
  · simp [unlang_generic_to_module_call, unlang_module_call_to_generic, hp]
  · simp [unlang_generic_to_module_resumption, unlang_module_resumption_to_generic, hq]

/-- Example base header used by concrete witnesses. -/
def sampleSelf (t : unlang_type_t) : unlang_t :=
  { parent := none, next := none, name := "n", debug_name := "n"
    type := t, actions := fun _ => 1 }

/-- Witness for C9 at a concrete module call and resumption record. -/
theorem unlang_specialisation_roundtrip_witness :
    unlang_generic_to_module_call
      (unlang_module_call_to_generic
        ⟨sampleSelf UNLANG_TYPE_MODULE_CALL, 0, 0⟩) =
      some ⟨sampleSelf UNLANG_TYPE_MODULE_CALL, 0, 0⟩ ∧
    unlang_generic_to_module_resumption
      (unlang_module_resumption_to_generic
        ⟨⟨sampleSelf UNLANG_TYPE_MODULE_RESUME, 0, 0⟩, 0, 0, 0, 0⟩) =
      some ⟨⟨sampleSelf UNLANG_TYPE_MODULE_RESUME, 0, 0⟩, 0, 0, 0, 0⟩ :=
  unlang_specialisation_roundtrip
    ⟨sampleSelf UNLANG_TYPE_MODULE_CALL, 0, 0⟩
    ⟨⟨sampleSelf UNLANG_TYPE_MODULE_RESUME, 0, 0⟩, 0, 0, 0, 0⟩
    rfl rfl

/-- C10: the group-conversion assertion accepts exactly the node types
strictly greater than `UNLANG_TYPE_MODULE_CALL` and at most
`UNLANG_TYPE_POLICY` — the fifteen types listed — in particular it passes
for `UNLANG_TYPE_BREAK` and `UNLANG_TYPE_RETURN`, which are not grouping
constructs, and rejects `UNLANG_TYPE_NULL`, `UNLANG_TYPE_MODULE_CALL`,
`UNLANG_TYPE_XLAT_INLINE` and `UNLANG_TYPE_MODULE_RESUME`. -/
theorem unlang_generic_to_group_check_spec :
    (∀ t : unlang_type_t,
      unlang_generic_to_group_check t = true ↔
        t ∈ [UNLANG_TYPE_GROUP, UNLANG_TYPE_LOAD_BALANCE,
             UNLANG_TYPE_REDUNDANT_LOAD_BALANCE, UNLANG_TYPE_PARALLEL,
             UNLANG_TYPE_IF, UNLANG_TYPE_ELSE, UNLANG_TYPE_ELSIF,
             UNLANG_TYPE_UPDATE, UNLANG_TYPE_SWITCH, UNLANG_TYPE_CASE,
             UNLANG_TYPE_FOREACH, UNLANG_TYPE_BREAK, UNLANG_TYPE_RETURN,
             UNLANG_TYPE_MAP, UNLANG_TYPE_POLICY]) ∧
    unlang_generic_to_group_check UNLANG_TYPE_BREAK = true ∧
    unlang_generic_to_group_check UNLANG_TYPE_RETURN = true ∧
    unlang_generic_to_group_check UNLANG_TYPE_NULL = false ∧
    unlang_generic_to_group_check UNLANG_TYPE_MODULE_CALL = false ∧
    unlang_generic_to_group_check UNLANG_TYPE_XLAT_INLINE = false ∧
    unlang_generic_to_group_check UNLANG_TYPE_MODULE_RESUME = false := by
  refine ⟨?_, by decide, by decide, by decide, by decide, by decide, by decide⟩
  intro t
  cases t <;> decide

/-- Disposition of an action table entry: REJECT marker, RETURN marker, or
a priority (comment above `MOD_ACTION_RETURN` in the header). -/
inductive mod_action_t where
  | action_reject
  | action_return
  | action_priority (p : Int)
  deriving DecidableEq, Repr

/-- Decode an action table entry into its disposition. -/
def mod_action_of (a : Int) : mod_action_t :=
  if a = MOD_ACTION_REJECT then .action_reject
  else if a = MOD_ACTION_RETURN then .action_return
  else .action_priority a

/-- Outcome of evaluating a group: normal completion with the recorded best
(result, priority), an immediate reject, or an immediate return with a
child's exact result. -/
inductive group_outcome where
  | group_done (result : rlm_rcode_t) (priority : Int)
  | group_rejected
  | group_returned (result : rlm_rcode_t)
  deriving DecidableEq, Repr

/-- Result code carried by a group outcome: a REJECT disposition terminates
the group with the reject result, a RETURN disposition with the child's
exact result. -/
def group_outcome.rcode : group_outcome → rlm_rcode_t
  | .group_done r _ => r
  | .group_rejected => rlm_rcode_t.RLM_MODULE_REJECT
  | .group_returned r => r

/-- Modelled from the spec: the priority/result combination of §4.1 driving
the sequential-group walk of the interpreter loop, whose implementation
(`interpreter.c` / `modcall.c`) is not part of this tree.  Starting from the
best (result, priority) recorded so far, process each child's produced
result code in declared order: look up its disposition in the group's
action table; REJECT short-circuits the group immediately, RETURN
short-circuits immediately with that exact result, and a priority replaces
the recorded best exactly when greater-than-or-equal to it.  Also returns
the list of children actually executed. -/
def unlang_group_fold (actions : rlm_rcode_t → Int)
    (best : rlm_rcode_t × Int) :
    List rlm_rcode_t → group_outcome × List rlm_rcode_t
  | [] => (.group_done best.1 best.2, [])
  | c :: rest =>
    match mod_action_of (actions c) with
    | .action_reject => (.group_rejected, [c])
    | .action_return => (.group_returned c, [c])
    | .action_priority p =>
      let best' := if p ≥ best.2 then (c, p) else best
      let r := unlang_group_fold actions best' rest
      (r.1, c :: r.2)

/-- Modelled from the spec: evaluate a sequential group over the result
codes its children produce, starting from the group default
(no-op, priority 0). -/
def unlang_group_run (actions : rlm_rcode_t → Int) (children : List rlm_rcode_t) :
    group_outcome × List rlm_rcode_t :=
  unlang_group_fold actions (rlm_rcode_t.RLM_MODULE_NOOP, 0) children

/-- One step of the best-(result, priority) recording: a priority replaces
the current best when greater-than-or-equal. -/
def unlang_best_step (actions : rlm_rcode_t → Int)
    (best : rlm_rcode_t × Int) (c : rlm_rcode_t) : rlm_rcode_t × Int :=
  if actions c ≥ best.2 then (c, actions c) else best

/-- Highest priority among a list of child result codes, starting from `p0`. -/
def maxPriority (actions : rlm_rcode_t → Int) (p0 : Int)
    (children : List rlm_rcode_t) : Int :=
  children.foldl (fun m c => max m (actions c)) p0

theorem mod_action_of_pos {a : Int} (h : 0 < a) :
    mod_action_of a = .action_priority a := by
  unfold mod_action_of MOD_ACTION_REJECT MOD_ACTION_RETURN
  rw [if_neg (by omega), if_neg (by omega)]

theorem maxPriority_le (actions : rlm_rcode_t → Int) :
    ∀ (l : List rlm_rcode_t) (p0 : Int), p0 ≤ maxPriority actions p0 l := by
  intro l
  induction l with
  | nil => intro p0; exact le_refl p0
  | cons c rest ih =>
      intro p0
      calc p0 ≤ max p0 (actions c) := le_max_left _ _
        _ ≤ maxPriority actions (max p0 (actions c)) rest := ih _

theorem maxPriority_mem_le (actions : rlm_rcode_t → Int) :
    ∀ (l : List rlm_rcode_t) (p0 : Int) (c : rlm_rcode_t), c ∈ l →
      actions c ≤ maxPriority actions p0 l := by
  intro l
  induction l with
  | nil => intro p0 c hc; exact absurd hc (List.not_mem_nil c)
  | cons x rest ih =>
      intro p0 c hc
      rcases List.mem_cons.mp hc with h | h
      · subst h
        calc actions c ≤ max p0 (actions c) := le_max_right _ _
          _ ≤ maxPriority actions (max p0 (actions c)) rest := maxPriority_le _ _ _
      · exact ih _ c h

theorem maxPriority_attained (actions : rlm_rcode_t → Int) :
    ∀ (l : List rlm_rcode_t) (p0 : Int),
      maxPriority actions p0 l = p0 ∨
        ∃ c ∈ l, maxPriority actions p0 l = actions c := by
  intro l
  induction l with
  | nil => intro p0; exact Or.inl rfl
  | cons x rest ih =>
      intro p0
      have h : maxPriority actions p0 (x :: rest)
          = maxPriority actions (max p0 (actions x)) rest := rfl
      rcases ih (max p0 (actions x)) with h0 | ⟨c, hc, hcv⟩
      · rcases max_choice p0 (actions x) with hm | hm
        · exact Or.inl (by rw [h, h0, hm])
        · exact Or.inr ⟨x, List.mem_cons_self _ _, by rw [h, h0, hm]⟩
      · exact Or.inr ⟨c, List.mem_cons_of_mem _ hc, by rw [h, hcv]⟩

theorem unlang_best_step_foldl_snd (actions : rlm_rcode_t → Int) :
    ∀ (l : List rlm_rcode_t) (best : rlm_rcode_t × Int),
      (l.foldl (unlang_best_step actions) best).2 = maxPriority actions best.2 l := by
  intro l
  induction l with
  | nil => intro best; rfl
  | cons c rest ih =>
      intro best
      have hstep : (unlang_best_step actions best c).2 = max best.2 (actions c) := by
        unfold unlang_best_step
        by_cases h : actions c ≥ best.2
        · rw [if_pos h]; exact (max_eq_right h).symm
        · rw [if_neg h]; exact (max_eq_left (le_of_not_ge h)).symm
      show (rest.foldl (unlang_best_step actions) (unlang_best_step actions best c)).2
          = maxPriority actions best.2 (c :: rest)
      rw [ih (unlang_best_step actions best c), hstep]
      rfl

theorem unlang_best_step_eq (actions : rlm_rcode_t → Int)
    (best : rlm_rcode_t × Int) (c : rlm_rcode_t) :
    unlang_best_step actions best c =
      if actions c ≥ best.2 then (c, actions c) else best := rfl

theorem unlang_best_step_foldl_find (actions : rlm_rcode_t → Int) :
    ∀ (l : List rlm_rcode_t) (r0 : rlm_rcode_t) (p0 : Int),
      l.foldl (unlang_best_step actions) (r0, p0) =
        match l.reverse.find? (fun c => actions c == maxPriority actions p0 l) with
        | some r => (r, maxPriority actions p0 l)
        | none => (r0, p0) := by
  intro l
  induction l using List.reverseRecOn with
  | nil => intro r0 p0; rfl
  | append_singleton xs c ih =>
      intro r0 p0
      have hmax : maxPriority actions p0 (xs ++ [c])
          = max (maxPriority actions p0 xs) (actions c) := by
        unfold maxPriority
        rw [List.foldl_append]
        rfl
      have hrev : (xs ++ [c]).reverse = c :: xs.reverse := by simp
      have hfold : (xs ++ [c]).foldl (unlang_best_step actions) (r0, p0)
          = unlang_best_step actions (xs.foldl (unlang_best_step actions) (r0, p0)) c := by
        rw [List.foldl_append]
        rfl
      have hsnd : (xs.foldl (unlang_best_step actions) (r0, p0)).2
          = maxPriority actions p0 xs := unlang_best_step_foldl_snd actions xs (r0, p0)
      by_cases hc : actions c = max (maxPriority actions p0 xs) (actions c)
      · have hfind : (xs ++ [c]).reverse.find?
            (fun x => actions x == maxPriority actions p0 (xs ++ [c])) = some c := by
          rw [hrev]
          refine List.find?_cons_of_pos _ ?_
          show (actions c == maxPriority actions p0 (xs ++ [c])) = true
          rw [hmax]
          exact beq_iff_eq.mpr hc
        rw [hfind, hfold, unlang_best_step_eq]
        have hge : actions c ≥ (xs.foldl (unlang_best_step actions) (r0, p0)).2 := by
          rw [hsnd]
          calc maxPriority actions p0 xs
              ≤ max (maxPriority actions p0 xs) (actions c) := le_max_left _ _
            _ = actions c := hc.symm
        rw [if_pos hge]
        show (c, actions c) = (c, maxPriority actions p0 (xs ++ [c]))
        rw [hmax]
        exact congrArg (fun q => (c, q)) hc
      · have hlt : actions c < maxPriority actions p0 xs := by
          by_contra hcon
          exact hc (max_eq_right (not_lt.mp hcon)).symm
        have hmm : max (maxPriority actions p0 xs) (actions c)
            = maxPriority actions p0 xs := max_eq_left (le_of_lt hlt)
        have hfind : (xs ++ [c]).reverse.find?
            (fun x => actions x == maxPriority actions p0 (xs ++ [c]))
            = xs.reverse.find? (fun x => actions x == maxPriority actions p0 xs) := by
          rw [hrev]
          rw [List.find?_cons_of_neg _ (by
            show ¬ ((actions c == maxPriority actions p0 (xs ++ [c])) = true)
            rw [hmax, hmm]
            simp only [beq_iff_eq]
            exact ne_of_lt hlt)]
          rw [hmax, hmm]
        rw [hfind, hfold, unlang_best_step_eq]
        have hnge : ¬ actions c ≥ (xs.foldl (unlang_best_step actions) (r0, p0)).2 := by
          rw [hsnd]
          exact not_le.mpr hlt
        rw [if_neg hnge, hmax, hmm]
        exact ih r0 p0

theorem unlang_group_fold_priorities (actions : rlm_rcode_t → Int) :
    ∀ (l : List rlm_rcode_t) (best : rlm_rcode_t × Int),
      (∀ c ∈ l, mod_action_of (actions c) = .action_priority (actions c)) →
      unlang_group_fold actions best l =
        (.group_done (l.foldl (unlang_best_step actions) best).1
                     (l.foldl (unlang_best_step actions) best).2, l) := by
  intro l
  induction l with
  | nil => intro best _; rfl
  | cons c rest ih =>
      intro best h
      have hc : mod_action_of (actions c) = .action_priority (actions c) :=
        h c (List.mem_cons_self _ _)
      show (match mod_action_of (actions c) with
        | .action_reject => (group_outcome.group_rejected, [c])
        | .action_return => (group_outcome.group_returned c, [c])
        | .action_priority p =>
          let best' := if p ≥ best.2 then (c, p) else best
          let r := unlang_group_fold actions best' rest
          (r.1, c :: r.2)) = _
      rw [hc]
      have hrest := ih (if actions c ≥ best.2 then (c, actions c) else best)
        (fun x hx => h x (List.mem_cons_of_mem _ hx))
      simp only [hrest]
      rfl

theorem unlang_group_fold_cons (actions : rlm_rcode_t → Int)
    (best : rlm_rcode_t × Int) (c : rlm_rcode_t) (rest : List rlm_rcode_t) :
    unlang_group_fold actions best (c :: rest) =
      match mod_action_of (actions c) with
      | .action_reject => (.group_rejected, [c])
      | .action_return => (.group_returned c, [c])
      | .action_priority p =>
        let best' := if p ≥ best.2 then (c, p) else best
        let r := unlang_group_fold actions best' rest
        (r.1, c :: r.2) := rfl

/-- C1: for a group whose children all carry positive-priority dispositions
(neither REJECT nor RETURN), the group's output is the child pair with the
maximum priority, and an equal-priority tie resolves to the later-evaluated
child: the result is the first entry of the reversed child list attaining
the maximum priority, because the greater-or-equal comparison replaces the
current best. -/
theorem unlang_group_priority_combination
    (actions : rlm_rcode_t → Int) (children : List rlm_rcode_t)
    (hne : children ≠ [])
    (hpos : ∀ c ∈ children, 0 < actions c) :
    ∃ r, children.reverse.find?
        (fun c => actions c == maxPriority actions 0 children) = some r ∧
      unlang_group_run actions children =
        (.group_done r (maxPriority actions 0 children), children) := by
  obtain ⟨c0, hc0⟩ := List.exists_mem_of_ne_nil children hne
  have hattain : ∃ c ∈ children, actions c = maxPriority actions 0 children := by
    rcases maxPriority_attained actions children 0 with h0 | h
    · exfalso
      have h1 : actions c0 ≤ maxPriority actions 0 children :=
        maxPriority_mem_le actions children 0 c0 hc0
      rw [h0] at h1
      exact absurd h1 (not_le.mpr (hpos c0 hc0))
    · obtain ⟨c, hc, hv⟩ := h
      exact ⟨c, hc, hv.symm⟩
  have hsome : (children.reverse.find?
      (fun c => actions c == maxPriority actions 0 children)).isSome := by
    refine List.find?_isSome.mpr ?_
    obtain ⟨c, hc, hv⟩ := hattain
    exact ⟨c, List.mem_reverse.mpr hc, beq_iff_eq.mpr hv⟩
  obtain ⟨r, hr⟩ := Option.isSome_iff_exists.mp hsome
  refine ⟨r, hr, ?_⟩
  have hprio : ∀ c ∈ children, mod_action_of (actions c) = .action_priority (actions c) :=
    fun c hc => mod_action_of_pos (hpos c hc)
  have h1 := unlang_group_fold_priorities actions children (rlm_rcode_t.RLM_MODULE_NOOP, 0) hprio
  have h2 := unlang_best_step_foldl_find actions children rlm_rcode_t.RLM_MODULE_NOOP 0
  rw [hr] at h2
  show unlang_group_fold actions (rlm_rcode_t.RLM_MODULE_NOOP, 0) children = _
  rw [h1]
  simp only [h2]

/-- Action table used by concrete witnesses of the priority combination:
ok and updated carry priority 2, every other code priority 1. -/
def wPriorityActions : rlm_rcode_t → Int
  | RLM_MODULE_OK => 2
  | RLM_MODULE_UPDATED => 2
  | _ => 1

/-- Witness for C1 on the children [ok, fail, updated]: ok and updated tie
at the maximum priority 2 and the later child updated wins. -/
theorem unlang_group_priority_combination_witness :
    ([RLM_MODULE_OK, RLM_MODULE_FAIL, RLM_MODULE_UPDATED] ≠ ([] : List rlm_rcode_t)) ∧
    (∀ c ∈ [RLM_MODULE_OK, RLM_MODULE_FAIL, RLM_MODULE_UPDATED], 0 < wPriorityActions c) ∧
    (∃ r, [RLM_MODULE_OK, RLM_MODULE_FAIL, RLM_MODULE_UPDATED].reverse.find?
        (fun c => wPriorityActions c ==
          maxPriority wPriorityActions 0 [RLM_MODULE_OK, RLM_MODULE_FAIL, RLM_MODULE_UPDATED]) = some r ∧
      unlang_group_run wPriorityActions [RLM_MODULE_OK, RLM_MODULE_FAIL, RLM_MODULE_UPDATED] =
        (.group_done r (maxPriority wPriorityActions 0
            [RLM_MODULE_OK, RLM_MODULE_FAIL, RLM_MODULE_UPDATED]),
         [RLM_MODULE_OK, RLM_MODULE_FAIL, RLM_MODULE_UPDATED])) :=
  ⟨by decide, by decide,
    unlang_group_priority_combination wPriorityActions
      [RLM_MODULE_OK, RLM_MODULE_FAIL, RLM_MODULE_UPDATED] (by decide) (by decide)⟩

theorem unlang_group_fold_reject_aux (actions : rlm_rcode_t → Int)
    (c : rlm_rcode_t) (post : List rlm_rcode_t) (hc : actions c = MOD_ACTION_REJECT) :
    ∀ (pre : List rlm_rcode_t) (best : rlm_rcode_t × Int),
      (∀ x ∈ pre, mod_action_of (actions x) = .action_priority (actions x)) →
      unlang_group_fold actions best (pre ++ c :: post) =
        (.group_rejected, pre ++ [c]) := by
  intro pre
  induction pre with
  | nil =>
      intro best _
      rw [List.nil_append, unlang_group_fold_cons]
      rw [show mod_action_of (actions c) = .action_reject from by rw [hc]; decide]
      rfl
  | cons x rest ih =>
      intro best h
      rw [List.cons_append, unlang_group_fold_cons]
      rw [h x (List.mem_cons_self _ _)]
      have hrest := ih (if actions x ≥ best.2 then (x, actions x) else best)
        (fun y hy => h y (List.mem_cons_of_mem _ hy))
      simp only [hrest]
      rfl

theorem unlang_group_fold_return_aux (actions : rlm_rcode_t → Int)
    (c : rlm_rcode_t) (post : List rlm_rcode_t) (hc : actions c = MOD_ACTION_RETURN) :
    ∀ (pre : List rlm_rcode_t) (best : rlm_rcode_t × Int),
      (∀ x ∈ pre, mod_action_of (actions x) = .action_priority (actions x)) →
      unlang_group_fold actions best (pre ++ c :: post) =
        (.group_returned c, pre ++ [c]) := by
  intro pre
  induction pre with
  | nil =>
      intro best _
      rw [List.nil_append, unlang_group_fold_cons]
      rw [show mod_action_of (actions c) = .action_return from by rw [hc]; decide]
      rfl
  | cons x rest ih =>
      intro best h
      rw [List.cons_append, unlang_group_fold_cons]
      rw [h x (List.mem_cons_self _ _)]
      have hrest := ih (if actions x ≥ best.2 then (x, actions x) else best)
        (fun y hy => h y (List.mem_cons_of_mem _ hy))
      simp only [hrest]
      rfl

/-- C2: a child whose result code maps to the REJECT disposition terminates
the group immediately with the reject result, and the siblings after it are
never executed (the executed-children trace stops at that child); likewise
a RETURN disposition exits the group immediately with exactly that child's
result, bypassing the remaining siblings. -/
theorem unlang_group_reject_return_short_circuit
    (actions : rlm_rcode_t → Int) (pre post : List rlm_rcode_t) (c d : rlm_rcode_t)
    (hpre : ∀ x ∈ pre, 0 < actions x)
    (hc : actions c = MOD_ACTION_REJECT)
    (hd : actions d = MOD_ACTION_RETURN) :
    (unlang_group_run actions (pre ++ c :: post) =
        (.group_rejected, pre ++ [c]) ∧
      (unlang_group_run actions (pre ++ c :: post)).1.rcode = RLM_MODULE_REJECT) ∧
    (unlang_group_run actions (pre ++ d :: post) =
        (.group_returned d, pre ++ [d]) ∧
      (unlang_group_run actions (pre ++ d :: post)).1.rcode = d) := by
  have hprio : ∀ x ∈ pre, mod_action_of (actions x) = .action_priority (actions x) :=
    fun x hx => mod_action_of_pos (hpre x hx)
  have h1 := unlang_group_fold_reject_aux actions c post hc pre
    (rlm_rcode_t.RLM_MODULE_NOOP, 0) hprio
  have h2 := unlang_group_fold_return_aux actions d post hd pre
    (rlm_rcode_t.RLM_MODULE_NOOP, 0) hprio
  refine ⟨⟨h1, ?_⟩, ⟨h2, ?_⟩⟩
  · show (unlang_group_fold actions (rlm_rcode_t.RLM_MODULE_NOOP, 0) (pre ++ c :: post)).1.rcode = _
    rw [h1]
    rfl
  · show (unlang_group_fold actions (rlm_rcode_t.RLM_MODULE_NOOP, 0) (pre ++ d :: post)).1.rcode = _
    rw [h2]
    rfl

/-- Action table used by concrete witnesses of the short-circuit behaviour:
reject maps to the REJECT marker, handled to the RETURN marker, everything
else to priority 1. -/
def wShortActions : rlm_rcode_t → Int
  | RLM_MODULE_REJECT => MOD_ACTION_REJECT
  | RLM_MODULE_HANDLED => MOD_ACTION_RETURN
  | _ => 1

/-- Witness for C2 on a 3-child group: child 2 triggers the short circuit
and child 3 (producing fail) is never invoked. -/
theorem unlang_group_reject_return_short_circuit_witness :
    (∀ x ∈ [RLM_MODULE_OK], 0 < wShortActions x) ∧
    wShortActions RLM_MODULE_REJECT = MOD_ACTION_REJECT ∧
    wShortActions RLM_MODULE_HANDLED = MOD_ACTION_RETURN ∧
    ((unlang_group_run wShortActions ([RLM_MODULE_OK] ++ RLM_MODULE_REJECT :: [RLM_MODULE_FAIL]) =
        (.group_rejected, [RLM_MODULE_OK] ++ [RLM_MODULE_REJECT]) ∧
      (unlang_group_run wShortActions
          ([RLM_MODULE_OK] ++ RLM_MODULE_REJECT :: [RLM_MODULE_FAIL])).1.rcode = RLM_MODULE_REJECT) ∧
    (unlang_group_run wShortActions ([RLM_MODULE_OK] ++ RLM_MODULE_HANDLED :: [RLM_MODULE_FAIL]) =
        (.group_returned RLM_MODULE_HANDLED, [RLM_MODULE_OK] ++ [RLM_MODULE_HANDLED]) ∧
      (unlang_group_run wShortActions
          ([RLM_MODULE_OK] ++ RLM_MODULE_HANDLED :: [RLM_MODULE_FAIL])).1.rcode = RLM_MODULE_HANDLED)) :=
  ⟨by decide, by decide, by decide,
    unlang_group_reject_return_short_circuit wShortActions [RLM_MODULE_OK] [RLM_MODULE_FAIL]
      RLM_MODULE_REJECT RLM_MODULE_HANDLED (by decide) (by decide) (by decide)⟩

/-- C5: evaluating a sequential group with zero children yields exactly the
result code no-op with priority 0 (and executes no children). -/
theorem unlang_group_empty_default (actions : rlm_rcode_t → Int) :
    unlang_group_run actions [] = (.group_done RLM_MODULE_NOOP 0, []) := rfl

/-- A 'good' result for a redundant section: ok, updated or no-op (comment
on `UNLANG_GROUP_TYPE_REDUNDANT` in the header). -/
def redundant_good (r : rlm_rcode_t) : Bool :=
  r == RLM_MODULE_OK || r == RLM_MODULE_UPDATED || r == RLM_MODULE_NOOP

/-- Modelled from the spec: redundant-group execution, whose implementation
(the `unlang_stack_entry_redundant_t` walk in `interpreter.c` / `modcall.c`)
is not part of this tree: try the children in declared order; accept the
first result classified as non-failure (ok/updated/no-op) and break out of
the group; on failure continue; if every child fails the group's result is
the last child's result.  Children are given by the result codes they
produce; the function returns the group result with the trace of the
children actually executed (`none` for an empty section). -/
def unlang_redundant_run : List rlm_rcode_t → Option (rlm_rcode_t × List rlm_rcode_t)
  | [] => none
  | c :: rest =>
    if redundant_good c then some (c, [c])
    else
      match unlang_redundant_run rest with
      | some (r, t) => some (r, c :: t)
      | none => some (c, [c])

theorem unlang_redundant_run_cons (c : rlm_rcode_t) (rest : List rlm_rcode_t) :
    unlang_redundant_run (c :: rest) =
      if redundant_good c then some (c, [c])
      else
        match unlang_redundant_run rest with
        | some (r, t) => some (r, c :: t)
        | none => some (c, [c]) := rfl

theorem unlang_redundant_first_good_aux (c : rlm_rcode_t) (post : List rlm_rcode_t)
    (hc : redundant_good c = true) :
    ∀ pre : List rlm_rcode_t, (∀ x ∈ pre, redundant_good x = false) →
      unlang_redundant_run (pre ++ c :: post) = some (c, pre ++ [c]) := by
  intro pre
  induction pre with
  | nil =>
      intro _
      rw [List.nil_append, unlang_redundant_run_cons, if_pos hc]
      rfl
  | cons x rest ih =>
      intro h
      rw [List.cons_append, unlang_redundant_run_cons,
        if_neg (by rw [h x (List.mem_cons_self _ _)]; exact Bool.false_ne_true)]
      rw [ih (fun y hy => h y (List.mem_cons_of_mem _ hy))]
      rfl

theorem unlang_redundant_all_fail_aux :
    ∀ (l : List rlm_rcode_t) (last : rlm_rcode_t), l.getLast? = some last →
      (∀ x ∈ l, redundant_good x = false) →
      unlang_redundant_run l = some (last, l) := by
  intro l
  induction l with
  | nil => intro last hlast _; exact absurd hlast (by simp)
  | cons x rest ih =>
      intro last hlast h
      rw [unlang_redundant_run_cons,
        if_neg (by rw [h x (List.mem_cons_self _ _)]; exact Bool.false_ne_true)]
      cases rest with
      | nil =>
          have hx : last = x := by
            simp only [List.getLast?_singleton, Option.some_inj] at hlast
            exact hlast.symm
          subst hx
          rfl
      | cons y rest2 =>
          have hlast2 : (y :: rest2).getLast? = some last := by
            rw [← hlast, List.getLast?_cons_cons]
          rw [ih last hlast2 (fun z hz => h z (List.mem_cons_of_mem _ hz))]

/-- C4: a redundant group tries children in declared order and returns the
first child result classified as non-failure (ok, updated or no-op),
skipping the remaining children (the executed trace stops there); if every
child produces a failure-classified result, the group's result is the last
child's result. -/
theorem unlang_redundant_semantics
    (pre post all : List rlm_rcode_t) (c last : rlm_rcode_t)
    (hpre : ∀ x ∈ pre, redundant_good x = false)
    (hc : redundant_good c = true)
    (hlast : all.getLast? = some last)
    (hall : ∀ x ∈ all, redundant_good x = false) :
    unlang_redundant_run (pre ++ c :: post) = some (c, pre ++ [c]) ∧
    unlang_redundant_run all = some (last, all) :=
  ⟨unlang_redundant_first_good_aux c post hc pre hpre,
   unlang_redundant_all_fail_aux all last hlast hall⟩

/-- Witness for C4: with children [fail, updated, ok] the first non-failure
child updated wins and ok is never tried; with children [fail, invalid] all
fail and the last result invalid is returned. -/
theorem unlang_redundant_semantics_witness :
    (∀ x ∈ [RLM_MODULE_FAIL], redundant_good x = false) ∧
    redundant_good RLM_MODULE_UPDATED = true ∧
    [RLM_MODULE_FAIL, RLM_MODULE_INVALID].getLast? = some RLM_MODULE_INVALID ∧
    (∀ x ∈ [RLM_MODULE_FAIL, RLM_MODULE_INVALID], redundant_good x = false) ∧
    (unlang_redundant_run ([RLM_MODULE_FAIL] ++ RLM_MODULE_UPDATED :: [RLM_MODULE_OK]) =
        some (RLM_MODULE_UPDATED, [RLM_MODULE_FAIL] ++ [RLM_MODULE_UPDATED]) ∧
      unlang_redundant_run [RLM_MODULE_FAIL, RLM_MODULE_INVALID] =
        some (RLM_MODULE_INVALID, [RLM_MODULE_FAIL, RLM_MODULE_INVALID])) :=
  ⟨by decide, by decide, by decide, by decide,
    unlang_redundant_semantics [RLM_MODULE_FAIL] [RLM_MODULE_OK]
      [RLM_MODULE_FAIL, RLM_MODULE_INVALID] RLM_MODULE_UPDATED RLM_MODULE_INVALID
      (by decide) (by decide) (by decide) (by decide)⟩

/-- A mutable stack frame (struct `unlang_stack_frame_t`): the node being
evaluated (an arena index), the accumulated result code and priority, the
unwind target used by break handling and the control flags.  The per-type
union payload (modcall/foreach/redundant state) is external data not needed
by the claims below. -/
structure unlang_stack_frame_t where
  instruction : Option Nat
  result : rlm_rcode_t
  priority : Int
  unwind : unlang_type_t
  do_next_sibling : Bool
  was_if : Bool
  if_taken : Bool
  resume : Bool
  top_frame : Bool
  deriving DecidableEq

/-- Interpreter stack of one execution (struct `unlang_stack_t`): the
current depth and the frames, bounded by `UNLANG_STACK_MAX`. -/
structure unlang_stack_t where
  depth : Nat
  frame : List unlang_stack_frame_t
  deriving DecidableEq

/-- Empty stack of a fresh execution. -/
def unlang_stack_init : unlang_stack_t :=
  { depth := 0, frame := [] }

/-- Modelled from the spec: the frame push of the interpreter, whose
implementation (`unlang_push` in `interpreter.c`) is not part of this tree:
exceeding the maximum stack depth at push time is a fatal, immediately
detected nesting error, raised before the pushed node executes; otherwise
the frame goes one level deeper. -/
def unlang_push (s : unlang_stack_t) (f : unlang_stack_frame_t) :
    Except String unlang_stack_t :=
  if s.depth ≥ UNLANG_STACK_MAX then
    .error "Internal sanity check failed: unlang stack is too deep"
  else
    .ok { depth := s.depth + 1, frame := s.frame ++ [f] }

/-- Push a sequence of nested frames in order. -/
def unlang_push_all (s : unlang_stack_t) :
    List unlang_stack_frame_t → Except String unlang_stack_t
  | [] => .ok s
  | f :: fs =>
    match unlang_push s f with
    | .ok s' => unlang_push_all s' fs
    | .error e => .error e

/-- The shared world: one immutable control-flow graph (a node arena) and
one stack per in-flight execution. -/
structure unlang_world where
  graph : List unlang_node
  executions : List unlang_stack_t

/-- Modelled from the spec: push a frame onto execution `i`'s stack; a
depth overflow is fatal for that execution only, detected before the pushed
node (or any leaf beneath it) executes, and leaves the shared graph and
every other execution's state untouched. -/
def unlang_world_push (w : unlang_world) (i : Nat) (f : unlang_stack_frame_t) :
    unlang_world × Option String :=
  match w.executions.get? i with
  | none => (w, some "no such execution")
  | some s =>
    match unlang_push s f with
    | .ok s' => ({ graph := w.graph, executions := w.executions.set i s' }, none)
    | .error e => (w, some e)

theorem unlang_push_all_ok :
    ∀ (fs : List unlang_stack_frame_t) (s : unlang_stack_t),
      s.depth + fs.length ≤ UNLANG_STACK_MAX →
      ∃ s', unlang_push_all s fs = .ok s' ∧ s'.depth = s.depth + fs.length := by
  intro fs
  induction fs with
  | nil => intro s _; exact ⟨s, rfl, rfl⟩
  | cons f fs ih =>
      intro s h
      have hlen : s.depth + (f :: fs).length = s.depth + 1 + fs.length := by
        rw [List.length_cons]
        omega
      have hlt : s.depth < UNLANG_STACK_MAX := by
        rw [hlen] at h
        omega
      have hpush : unlang_push s f =
          .ok { depth := s.depth + 1, frame := s.frame ++ [f] } := by
        unfold unlang_push
        rw [if_neg (not_le.mpr hlt)]
      obtain ⟨s', h1, h2⟩ := ih { depth := s.depth + 1, frame := s.frame ++ [f] }
        (by rw [hlen] at h; exact h)
      refine ⟨s', ?_, ?_⟩
      · show (match unlang_push s f with
          | .ok s' => unlang_push_all s' fs
          | .error e => .error e) = .ok s'
        rw [hpush]
        exact h1
      · rw [h2, ← hlen]

/-- C3: an execution whose nesting depth never exceeds `UNLANG_STACK_MAX`
frames raises no stack-overflow error, while pushing one frame beyond the
maximum fails immediately at push time with the fatal nesting error, before
the pushed node executes (it is never added to any stack), and leaves the
shared graph and every execution's stack exactly as they were. -/
theorem unlang_stack_depth_limit
    (fs : List unlang_stack_frame_t)
    (w : unlang_world) (i : Nat) (s : unlang_stack_t) (f : unlang_stack_frame_t)
    (hlen : fs.length ≤ UNLANG_STACK_MAX)
    (hget : w.executions.get? i = some s)
    (hdepth : s.depth = UNLANG_STACK_MAX) :
    (∃ s', unlang_push_all unlang_stack_init fs = .ok s' ∧ s'.depth = fs.length) ∧
    unlang_world_push w i f =
      (w, some "Internal sanity check failed: unlang stack is too deep") := by
  constructor
  · obtain ⟨s', h1, h2⟩ := unlang_push_all_ok fs unlang_stack_init
      (by show 0 + fs.length ≤ UNLANG_STACK_MAX; omega)
    exact ⟨s', h1, by rw [h2]; show 0 + fs.length = fs.length; omega⟩
  · have hpush : unlang_push s f =
        .error "Internal sanity check failed: unlang stack is too deep" := by
      unfold unlang_push
      rw [if_pos (le_of_eq hdepth.symm)]
    show (match w.executions.get? i with
      | none => (w, some "no such execution")
      | some s =>
        match unlang_push s f with
        | .ok s' => ({ graph := w.graph, executions := w.executions.set i s' }, none)
        | .error e => (w, some e)) = _
    rw [hget]
    show (match unlang_push s f with
      | .ok s' => (({ graph := w.graph, executions := w.executions.set i s' } : unlang_world),
          (none : Option String))
      | .error e => (w, some e)) = _
    rw [hpush]

/-- Modelled from the spec: a module behaviour at a module-call node: the
number of yield/resume round-trips it performs before its continuation
finally produces the result code.  The module's opaque internal state
(`ctx` of `unlang_module_resumption_t`) is the remaining count. -/
structure module_behaviour where
  yields : Nat
  rcode : rlm_rcode_t
  deriving DecidableEq, Repr

/-- Modelled from the spec: interpreter handling of a module call (§4.3),
whose implementation (`unlang_module_resumption_t` handling in
`interpreter.c`) is not part of this tree.  With `n` yields remaining the
call yields, installing a resumption record; on resume the continuation is
invoked with the stored state and its return value is treated exactly like
a normal module-call result; with no yields remaining the module returns
its result synchronously. -/
def unlang_module_eval_fuel : Nat → rlm_rcode_t → rlm_rcode_t
  | 0, r => r
  | n + 1, r => unlang_module_eval_fuel n r

/-- Terminal result code of a module behaviour under yield/resume. -/
def unlang_module_eval (b : module_behaviour) : rlm_rcode_t :=
  unlang_module_eval_fuel b.yields b.rcode

/-- Modelled from the spec: execute a group of module calls: each child's
produced result code feeds the priority/result combination of §4.1. -/
def unlang_exec_modules (actions : rlm_rcode_t → Int)
    (children : List module_behaviour) : group_outcome × List rlm_rcode_t :=
  unlang_group_run actions (children.map unlang_module_eval)

theorem unlang_module_eval_fuel_eq (R : rlm_rcode_t) :
    ∀ n : Nat, unlang_module_eval_fuel n R = R := by
  intro n
  induction n with
  | zero => rfl
  | succ k ih => exact ih

/-- C6: a module that yields and is resumed any finite number of times
before its continuation finally returns result R produces the same terminal
execution result as the identical execution in which the module returns R
synchronously on its first call, in any surrounding group. -/
theorem unlang_yield_resume_equiv (actions : rlm_rcode_t → Int)
    (pre post : List module_behaviour) (n : Nat) (R : rlm_rcode_t) :
    unlang_exec_modules actions (pre ++ ⟨n, R⟩ :: post) =
      unlang_exec_modules actions (pre ++ ⟨0, R⟩ :: post) := by
  unfold unlang_exec_modules
  rw [List.map_append, List.map_append, List.map_cons, List.map_cons]
  show unlang_group_run actions
      (_ ++ unlang_module_eval_fuel n R :: _) = unlang_group_run actions
      (_ ++ unlang_module_eval_fuel 0 R :: _)
  rw [unlang_module_eval_fuel_eq R n, unlang_module_eval_fuel_eq R 0]

/-- Lifecycle state of the resumption record of a yielded frame: still
suspended, consumed by a resume, or cancelled by a signal. -/
inductive resumption_state where
  | suspended
  | consumed
  | cancelled
  deriving DecidableEq, Repr

/-- Events the surrounding event loop can deliver for a yielded frame. -/
inductive interp_event where
  | ev_resume
  | ev_signal
  deriving DecidableEq, Repr

/-- Callback invocations observable by the module: the continuation
(`callback` field) or the cancellation (`signal_callback` field). -/
inductive callback_invocation where
  | invoke_continuation
  | invoke_cancellation
  deriving DecidableEq, Repr

/-- Modelled from the spec: one event applied to the resumption record's
lifecycle (§4.3), whose implementation is not part of this tree: a resume
of a suspended record invokes the continuation once and discards the
record; a signal of a suspended record invokes the cancellation callback
once and discards the record; once discarded, no callback ever fires for
that yield again. -/
def resumption_step : resumption_state → interp_event →
    resumption_state × List callback_invocation
  | .suspended, .ev_resume => (.consumed, [.invoke_continuation])
  | .suspended, .ev_signal => (.cancelled, [.invoke_cancellation])
  | s, _ => (s, [])

/-- Trace of callback invocations produced by a sequence of events. -/
def resumption_run : resumption_state → List interp_event → List callback_invocation
  | _, [] => []
  | s, e :: es =>
    (resumption_step s e).2 ++ resumption_run (resumption_step s e).1 es

theorem resumption_run_dead :
    ∀ evs : List interp_event,
      resumption_run .consumed evs = [] ∧ resumption_run .cancelled evs = [] := by
  intro evs
  induction evs with
  | nil => exact ⟨rfl, rfl⟩
  | cons e es ih =>
      cases e
      · exact ⟨by show [] ++ resumption_run .consumed es = []; rw [ih.1]; rfl,
          by show [] ++ resumption_run .cancelled es = []; rw [ih.2]; rfl⟩
      · exact ⟨by show [] ++ resumption_run .consumed es = []; rw [ih.1]; rfl,
          by show [] ++ resumption_run .cancelled es = []; rw [ih.2]; rfl⟩

theorem resumption_run_cases :
    ∀ evs : List interp_event,
      resumption_run .suspended evs = [] ∨
      resumption_run .suspended evs = [.invoke_continuation] ∨
      resumption_run .suspended evs = [.invoke_cancellation] := by
  intro evs
  cases evs with
  | nil => exact Or.inl rfl
  | cons e es =>
      cases e
      · refine Or.inr (Or.inl ?_)
        show [callback_invocation.invoke_continuation] ++ resumption_run .consumed es = _
        rw [(resumption_run_dead es).1]
        rfl
      · refine Or.inr (Or.inr ?_)
        show [callback_invocation.invoke_cancellation] ++ resumption_run .cancelled es = _
        rw [(resumption_run_dead es).2]
        rfl

/-- C7: in every sequence of interpreter events for a yielded frame, the
continuation callback is invoked at most once and the cancellation callback
at most once; signaling the suspended frame invokes the cancellation
callback exactly once and the continuation callback never; and a
continuation invocation never follows a cancellation invocation. -/
theorem unlang_resumption_callback_invariant (evs : List interp_event) :
    (resumption_run .suspended evs).count .invoke_continuation ≤ 1 ∧
    (resumption_run .suspended evs).count .invoke_cancellation ≤ 1 ∧
    (resumption_run .suspended (.ev_signal :: evs)).count .invoke_cancellation = 1 ∧
    (resumption_run .suspended (.ev_signal :: evs)).count .invoke_continuation = 0 ∧
    ¬ [callback_invocation.invoke_cancellation,
        callback_invocation.invoke_continuation].Sublist
          (resumption_run .suspended evs) := by
  have hsig : resumption_run .suspended (.ev_signal :: evs) =
      [.invoke_cancellation] := by
    show [callback_invocation.invoke_cancellation] ++ resumption_run .cancelled evs = _
    rw [(resumption_run_dead evs).2]
    rfl
  refine ⟨?_, ?_, ?_, ?_, ?_⟩
  · rcases resumption_run_cases evs with h | h | h <;> rw [h] <;> decide
  · rcases resumption_run_cases evs with h | h | h <;> rw [h] <;> decide
  · rw [hsig]; decide
  · rw [hsig]; decide
  · intro hs
    have hl := hs.length_le
    rcases resumption_run_cases evs with h | h | h <;> rw [h] at hl <;> simp at hl

/-- Interpreter directives (enum `unlang_action_t`). -/
inductive unlang_action_t where
  | UNLANG_ACTION_CALCULATE_RESULT
  | UNLANG_ACTION_CONTINUE
  | UNLANG_ACTION_PUSHED_CHILD
  | UNLANG_ACTION_BREAK
  | UNLANG_ACTION_STOP_PROCESSING
  deriving DecidableEq, Repr

/-- Modelled from the spec: the directive the operation table produces for
a node (§4.2), whose implementation (`unlang_ops[]` in `interpreter.c`) is
not part of this tree: leaves calculate a result; groups with children push
a child frame, childless groups continue; a break statement unwinds; an
unset node stops processing; everything else continues to the sibling. -/
def unlang_node_directive (node : unlang_node) : unlang_action_t :=
  match node with
  | .module_call _ => .UNLANG_ACTION_CALCULATE_RESULT
  | .module_resumption _ => .UNLANG_ACTION_CALCULATE_RESULT
  | .xlat_inline _ => .UNLANG_ACTION_CALCULATE_RESULT
  | .group g =>
      if g.children.isSome then .UNLANG_ACTION_PUSHED_CHILD
      else .UNLANG_ACTION_CONTINUE
  | .base b =>
      match b.type with
      | UNLANG_TYPE_BREAK => .UNLANG_ACTION_BREAK
      | UNLANG_TYPE_NULL => .UNLANG_ACTION_STOP_PROCESSING
      | _ => .UNLANG_ACTION_CONTINUE

/-- First child node index of a node, when it is a grouping construct. -/
def unlang_node_child (node : unlang_node) : Option Nat :=
  match node with
  | .group g => g.children
  | _ => none

/-- Fresh frame pushed for a child node. -/
def unlang_frame_init (i : Nat) : unlang_stack_frame_t :=
  { instruction := some i, result := RLM_MODULE_NOOP, priority := 0,
    unwind := UNLANG_TYPE_NULL, do_next_sibling := true, was_if := false,
    if_taken := false, resume := false, top_frame := false }

/-- Fold a popped child frame's (result, priority) into the parent frame on
top of the remaining frames, using the greater-or-equal comparison of §4.1. -/
def unlang_fold_into_parent (frames : List unlang_stack_frame_t)
    (child : unlang_stack_frame_t) : List unlang_stack_frame_t :=
  match frames.getLast? with
  | none => []
  | some parent =>
      frames.dropLast ++
        [if child.priority ≥ parent.priority then
          { parent with result := child.result, priority := child.priority }
        else parent]

/-- Unwind the (reversed, top-first) frame list down to the first frame
whose node's type matches the unwind target. -/
def unlang_unwind_rev (g : List unlang_node) (target : unlang_type_t) :
    List unlang_stack_frame_t → List unlang_stack_frame_t
  | [] => []
  | fr :: rest =>
    match fr.instruction.bind (fun i => (g.get? i).map unlang_node.self) with
    | some sl =>
        if sl.type = target then fr :: rest
        else unlang_unwind_rev g target rest
    | none => unlang_unwind_rev g target rest

/-- The world as one execution sees it: the shared immutable graph and the
execution's own stack. -/
structure unlang_interp_world where
  graph : List unlang_node
  stack : unlang_stack_t

/-- Modelled from the spec: one iteration of the interpreter loop (§4.2),
whose implementation (`unlang_interpret` in `interpreter.c`) is not part of
this tree: dispatch the active frame's node through the operation table and
act on the returned directive (calculate-result, continue, pushed-child,
break, stop-processing); every directive mutates only the per-execution
stack frames. -/
def unlang_interpret_step (w : unlang_interp_world) : unlang_interp_world :=
  match w.stack.frame.getLast? with
  | none => w
  | some fr =>
    match fr.instruction.bind (fun i => w.graph.get? i) with
    | none =>
        { graph := w.graph,
          stack := { depth := w.stack.depth - 1, frame := w.stack.frame.dropLast } }
    | some node =>
      match unlang_node_directive node with
      | .UNLANG_ACTION_CALCULATE_RESULT =>
          { graph := w.graph,
            stack := { depth := w.stack.depth - 1,
                       frame := unlang_fold_into_parent w.stack.frame.dropLast fr } }
      | .UNLANG_ACTION_CONTINUE =>
          match node.self.next with
          | some nxt =>
              { graph := w.graph,
                stack := { depth := w.stack.depth,
                           frame := w.stack.frame.dropLast ++
                             [{ fr with instruction := some nxt }] } }
          | none =>
              { graph := w.graph,
                stack := { depth := w.stack.depth - 1,
                           frame := w.stack.frame.dropLast } }
      | .UNLANG_ACTION_PUSHED_CHILD =>
          match unlang_node_child node with
          | some ci =>
              match unlang_push w.stack (unlang_frame_init ci) with
              | .ok s' => { graph := w.graph, stack := s' }
              | .error _ => { graph := w.graph, stack := { depth := 0, frame := [] } }
          | none => w
      | .UNLANG_ACTION_BREAK =>
          { graph := w.graph,
            stack := { depth := (unlang_unwind_rev w.graph fr.unwind
                         w.stack.frame.reverse).length,
                       frame := (unlang_unwind_rev w.graph fr.unwind
                         w.stack.frame.reverse).reverse } }
      | .UNLANG_ACTION_STOP_PROCESSING =>
          { graph := w.graph, stack := { depth := 0, frame := [] } }

/-- C8: every interpreter operation leaves every node of the control-flow
graph unchanged: after an interpreter step of any directive, and after any
frame push into any execution, the whole node arena — every `unlang_t`,
`unlang_group_t` and `unlang_module_call_t`, all their fields — is
identical to what it was; only per-execution stack frames are mutated. -/
theorem unlang_graph_immutable :
    (∀ w : unlang_interp_world, (unlang_interpret_step w).graph = w.graph) ∧
    (∀ (w : unlang_world) (i : Nat) (f : unlang_stack_frame_t),
      (unlang_world_push w i f).1.graph = w.graph ∧
      ∀ j : Nat, j ≠ i →
        ((unlang_world_push w i f).1.executions.get? j = w.executions.get? j)) := by
  constructor
  · intro w
    unfold unlang_interpret_step
    split
    · rfl
    · split
      · rfl
      · split
        · rfl
        · split
          · rfl
          · rfl
        · split
          · split
            · rfl
            · rfl
          · rfl
        · rfl
        · rfl
  · intro w i f
    unfold unlang_world_push
    split
    · exact ⟨rfl, fun j _ => rfl⟩
    · split
      · refine ⟨rfl, fun j hj => ?_⟩
        show (w.executions.set i _).get? j = w.executions.get? j
        exact List.get?_set_ne _ _ (fun h => hj h.symm)
      · exact ⟨rfl, fun j _ => rfl⟩

/-- Frames of a maximally nested execution, used by the stack-depth witness. -/
def wFullFrames : List unlang_stack_frame_t := List.replicate 64 (unlang_frame_init 0)

/-- A stack already at the maximum depth, used by the stack-depth witness. -/
def wFullStack : unlang_stack_t := { depth := 64, frame := wFullFrames }

/-- World with a single, maximally nested execution, used by the
stack-depth witness. -/
def wWorld : unlang_world := { graph := [], executions := [wFullStack] }

/-- Witness for C3: pushing 64 nested frames from an empty stack succeeds,
while the 65th push onto a full stack fails with the fatal nesting error
and changes nothing. -/
theorem unlang_stack_depth_limit_witness :
    wFullFrames.length ≤ UNLANG_STACK_MAX ∧
    wWorld.executions.get? 0 = some wFullStack ∧
    wFullStack.depth = UNLANG_STACK_MAX ∧
    ((∃ s', unlang_push_all unlang_stack_init wFullFrames = .ok s' ∧
        s'.depth = wFullFrames.length) ∧
      unlang_world_push wWorld 0 (unlang_frame_init 0) =
        (wWorld, some "Internal sanity check failed: unlang stack is too deep")) :=
  ⟨by decide, rfl, rfl,
    unlang_stack_depth_limit wFullFrames wWorld 0 wFullStack (unlang_frame_init 0)
      (by decide) rfl rfl⟩
